import Mathlib

/-!
Shallow embedding of the Resource Import and Identity Resolution pipeline of
the VoxeLauncher repository (main/service/ResourceService, the resource
resolver in main/util/resource, the load/persistence path of Service, and the

instance mod deployment mutations of shared/store/modules/instance).

Machine conventions:
* the JavaScript object `hashOrUrlOrInoOrFilePathToResource` is modelled as an
  association list from `String` keys to `Resource` values with
  last-write-wins semantics (`idxSet` removes the old binding, so keys stay
  distinct, exactly as in a JS object);
* numeric keys (inodes) are converted to strings on both write and read,
  matching the JS number-to-property-key coercion;
* promise rejection / thrown errors are modelled with `Except`;
* the SHA-1 digest and the archive-opening function are parameters of the
  model (arbitrary functions), since they are external libraries.
-/

/-- Metadata parsed out of an archive by a type descriptor. The TS type is
`any`; a small inductive with decidable equality is enough for the claims. -/
inductive Metadata where
  | empty : Metadata
  | tag (s : String) : Metadata
deriving DecidableEq, Repr

/-- Icon bytes extracted by `parseIcon`. -/
abbrev Icon := List Nat

/-- Curseforge source reference carried in `resource.source.curseforge`. -/
structure CurseforgeSource where
  projectId : Nat
  fileId : Nat
deriving DecidableEq, Repr

/-- The `source` field of a resource: the original uris, the optional
curseforge reference and the creation date string. -/
structure SourceInformation where
  uri : List String
  curseforge : Option CurseforgeSource
  date : String
deriving DecidableEq, Repr

/-- The immutable resource record, with the exact fields the source's
`UNKNOWN_RESOURCE` literal exhibits (metadata, type, domain, ino, size, hash,
ext, path, tags, name, source). `type` is spelled `rtype` because `type` is
reserved in Lean. -/
structure Resource where
  hash : String
  path : String
  ino : Nat
  size : Nat
  ext : String
  rtype : String
  domain : String
  name : String
  tags : List String
  metadata : Metadata
  source : SourceInformation
deriving DecidableEq, Repr

/-- The frozen `UNKNOWN_RESOURCE` sentinel from universal/entities/resource. -/
def UNKNOWN_RESOURCE : Resource :=
  { hash := ""
    path := ""
    ino := 0
    size := 0
    ext := ""
    rtype := "unknown"
    domain := "unknown"
    name := ""
    tags := []
    metadata := Metadata.empty
    source := { uri := [], curseforge := none, date := "2000-01-01T00:00:00.000Z" } }

/-- A node of the modelled file system: a directory, a regular file with an
inode and content bytes, or a file whose stat succeeds but whose content read
fails with an I/O error. -/
inductive FileNode where
  | dir : FileNode
  | file (ino : Nat) (content : List Nat) : FileNode
  | broken (ino : Nat) (size : Nat) : FileNode
deriving DecidableEq, Repr

/-- The file system is a finite map from paths to nodes. -/
abbrev FS := List (String × FileNode)

def fsLookup (fs : FS) (p : String) : Option FileNode :=
  (fs.find? (fun e => e.1 == p)).map (fun e => e.2)

/-- Errors raised by the modelled I/O and import operations. -/
inductive IOError where
  | enoent : IOError
  | eisdir : IOError
  | eio : IOError
  | parseFailed : IOError
deriving DecidableEq, Repr

/-- Result of `stat`. -/
structure FileStat where
  isDir : Bool
  ino : Nat
  size : Nat
deriving DecidableEq, Repr

/-- Model of `fs.stat`: missing paths reject, everything else reports
directory-ness, inode and size. -/
def statFile (fs : FS) (p : String) : Except IOError FileStat :=
  match fsLookup fs p with
  | none => Except.error IOError.enoent
  | some FileNode.dir => Except.ok { isDir := true, ino := 0, size := 0 }
  | some (FileNode.file ino c) => Except.ok { isDir := false, ino := ino, size := c.length }
  | some (FileNode.broken ino sz) => Except.ok { isDir := false, ino := ino, size := sz }

/-- Model of `fs.readFile`: only regular files can be read. -/
def readFileFS (fs : FS) (p : String) : Except IOError (List Nat) :=
  match fsLookup fs p with
  | some (FileNode.file _ c) => Except.ok c
  | some (FileNode.broken _ _) => Except.error IOError.eio
  | _ => Except.error IOError.enoent

/-- Character-level splitter (a kernel-reducible stand-in for `splitOn`). -/
def splitOnChar (sep : Char) : List Char → List (List Char)
  | [] => [[]]
  | c :: rest =>
    let r := splitOnChar sep rest
    if c = sep then [] :: r
    else
      match r with
      | [] => [[c]]
      | h :: t => (c :: h) :: t

/-- Model of node's `path.basename`. -/
def basenameOf (p : String) : String :=
  String.mk ((splitOnChar '/' p.data).getLastD [])

/-- Model of node's `path.extname`: the suffix of the basename from its last
dot, empty when there is no dot or only a leading dot. -/
def extname (p : String) : String :=
  let parts := splitOnChar '.' (basenameOf p).data
  if parts.length ≤ 1 then ""
  else if parts.headD [] = [] && parts.length = 2 then ""
  else String.mk ('.' :: parts.getLastD [])

/-- Model of node's `path.join` for the two-argument uses in the source. -/
def joinPath (a b : String) : String :=
  if b = "" then a else if a = "" then b else a ++ "/" ++ b

/-- Model of node's `path.isAbsolute`. -/
def isAbsolutePath (p : String) : Bool :=
  match p.data with
  | c :: _ => c = '/'
  | [] => false

/-- The in-memory multi-key index `hashOrUrlOrInoOrFilePathToResource`. -/
abbrev Index := List (String × Resource)

/-- Key lookup on the index (property read on the JS object). -/
def idxGet : Index → String → Option Resource
  | [], _ => none
  | (k', v) :: rest, k => if k == k' then some v else idxGet rest k

/-- Key write on the index (property assignment on the JS object): the old
binding of the key, if any, is replaced. -/
def idxSet (idx : Index) (k : String) (v : Resource) : Index :=
  (k, v) :: idx.filter (fun e => !(e.1 == k))

/-- Key removal on the index (the JS `delete` operator). -/
def idxDel (idx : Index) (k : String) : Index :=
  idx.filter (fun e => !(e.1 == k))

/-- An archive view handed to the per-type parsers. The model identifies the
opened view with the raw content bytes. -/
abbrev FSView := List Nat

/-- A resource type descriptor from the registry (main/util/resource entries):
a type, a domain, an extension affinity, a metadata parser, an icon parser, a
suggested-name derivation and a canonical-uri derivation. `type` is spelled
`rtype` because `type` is reserved in Lean. -/
structure ResourceRegistryEntry where
  rtype : String
  domain : String
  ext : String
  parseMetadata : FSView → Except Unit Metadata
  parseIcon : Metadata → FSView → Except Unit Icon
  getSuggestedName : Metadata → String
  getUri : Metadata → String → String

/-- Modelled from the spec: the `UNKNOWN_ENTRY` descriptor of
main/util/resource is not under src (only its importers are). Following the
spec, it is the universal fallback whose metadata parse always succeeds with
empty metadata, which yields no icon, no suggested name, and whose canonical
uri is derived from the content hash. -/
def UNKNOWN_ENTRY : ResourceRegistryEntry :=
  { rtype := "unknown"
    domain := "unknown"
    ext := ""
    parseMetadata := fun _ => Except.ok Metadata.empty
    parseIcon := fun _ _ => Except.error ()
    getSuggestedName := fun _ => ""
    getUri := fun _ hash => "resource://" ++ hash }

/-- The nested helper `parseMetadataAndIcon` of `parseResource`: parse the
metadata and, on success, attempt the icon, swallowing an icon failure
(`.catch(() => undefined)`). -/
def parseMetadataAndIcon (entry : ResourceRegistryEntry) (fs : FSView) :
    Except Unit (Metadata × Option Icon) :=
  match entry.parseMetadata fs with
  | Except.error e => Except.error e
  | Except.ok m => Except.ok (m, (entry.parseIcon m fs).toOption)

/-- The result of resolution: the winning registry entry spread together with
its parsed metadata (none models the `undefined` of the archive-open failure
branch) and optional icon. -/
structure ResolvedEntry where
  entry : ResourceRegistryEntry
  metadata : Option Metadata
  icon : Option Icon

/-- Candidate-list construction of `parseResource`/`parseResourceByPath`: with
no hint (or the `*` wildcard) the candidates are the registry entries whose
extension matches, otherwise the entries whose domain or type equals the hint;
`UNKNOWN_ENTRY` is pushed last. -/
def buildChains (registry : List ResourceRegistryEntry) (ext : String)
    (typeHint : Option String) : List ResourceRegistryEntry :=
  let hint := typeHint.getD ""
  (if hint = "*" ∨ hint = "" then registry.filter (fun r => r.ext == ext)
   else registry.filter (fun r => r.domain == hint || r.rtype == hint)) ++ [UNKNOWN_ENTRY]

/-- The promise-chain `reduce((memo, b) => memo.catch(() => b()), reject())`:
candidates are attempted in order and the first whose metadata parse succeeds
wins; if all fail the rejection propagates. -/
def tryEntries (fs : FSView) : List ResourceRegistryEntry → Except Unit ResolvedEntry
  | [] => Except.error ()
  | entry :: rest =>
    match parseMetadataAndIcon entry fs with
    | Except.ok (m, icon) => Except.ok { entry := entry, metadata := some m, icon := icon }
    | Except.error _ => tryEntries fs rest

/-- The `parseResource` function of main/util/resource (buffer flavour). The
archive opener is a parameter; its failure is caught and mapped to the unknown
entry with `undefined` metadata and icon. The promise built by the reduce is
returned without an await, so a rejection of the whole chain would escape the
try/catch, which the `Except` result models. -/
def parseResource (openFs : List Nat → Except Unit FSView)
    (registry : List ResourceRegistryEntry) (data : List Nat) (ext : String)
    (typeHint : Option String) : Except Unit ResolvedEntry :=
  match openFs data with
  | Except.error _ =>
    Except.ok { entry := UNKNOWN_ENTRY, metadata := none, icon := none }
  | Except.ok fs => tryEntries fs (buildChains registry ext typeHint)

/-- Import options of `ResourceService.importResource`: path, optional type
hint, optional source info, caller-supplied urls. -/
structure ImportOption where
  path : String
  rtype : Option String := none
  sourceCurseforge : Option CurseforgeSource := none
  url : List String := []

/-- Modelled from the spec: `createResourceBuilder` of main/util/resource is
not under src. Following the spec's Resource Builder contract it starts an
empty accumulator preloaded with the caller's source info. -/
def createResourceBuilder (sourceCurseforge : Option CurseforgeSource) : Resource :=
  { hash := ""
    path := ""
    ino := 0
    size := 0
    ext := ""
    rtype := "unknown"
    domain := "unknown"
    name := ""
    tags := []
    metadata := Metadata.empty
    source := { uri := [], curseforge := sourceCurseforge, date := "" } }

/-- Modelled from the spec: `decorateBuilderWithPathAndHash` sets the path,
the content hash and the extension derived from the path. -/
def decorateBuilderWithPathAndHash (b : Resource) (path hash : String) : Resource :=
  { b with path := path, hash := hash, ext := extname path }

/-- Set-semantics append for the source uri list (`sourceUris: set<string>` in
the spec's data model). -/
def addUri (uris : List String) (u : String) : List String :=
  if u ∈ uris then uris else uris ++ [u]

/-- Modelled from the spec: `decorateBuilderSourceUrls` adds the caller's urls
to the builder's source uri set. -/
def decorateBuilderSourceUrls (b : Resource) (urls : List String) : Resource :=
  { b with source := { b.source with uri := urls.foldl addUri b.source.uri } }

/-- Modelled from the spec: `decorateBuilderFromStat` copies the inode and
size from the stat result. -/
def decorateBuilderFromStat (b : Resource) (st : FileStat) : Resource :=
  { b with ino := st.ino, size := st.size }

/-- Modelled from the spec: `decorateBuilderFromMetadata` copies the resolved
type, domain and metadata into the builder, derives the display name from the
descriptor's suggested name (falling back to the file's basename), and adds
the canonical uri derived from metadata and content hash to the source uris. -/
def decorateBuilderFromMetadata (b : Resource) (r : ResolvedEntry) : Resource :=
  let m := r.metadata.getD Metadata.empty
  let suggested := r.entry.getSuggestedName m
  { b with
    rtype := r.entry.rtype
    domain := r.entry.domain
    metadata := m
    name := if suggested = "" then basenameOf b.path else suggested
    source := { b.source with uri := addUri b.source.uri (r.entry.getUri m b.hash) } }

/-- Modelled from the spec: `getCurseforgeUrl` derives the curseforge uri key
from the project and file ids. -/
def getCurseforgeUrl (projectId fileId : Nat) : String :=
  "curseforge://" ++ toString projectId ++ "/" ++ toString fileId

/-- The `normalizeResource` method: a string is looked up in the index and an
unknown key falls back to the `UNKNOWN_RESOURCE` sentinel; a resource object
passes through. -/
def normalizeResource (idx : Index) (res : Sum String Resource) : Resource :=
  match res with
  | Sum.inl s => (idxGet idx s).getD UNKNOWN_RESOURCE
  | Sum.inr r => r

/-- The `getResourceByKey` method (raw property read, number keys coerced). -/
def getResourceByKey (idx : Index) (key : String) : Option Resource :=
  idxGet idx key

/-- A query for `getResource`: optional hash, optional url (single string or
list) and optional inode. -/
structure Query where
  hash : Option String := none
  url : Option (Sum String (List String)) := none
  ino : Option Nat := none

/-- First index hit in a list of url keys (the `for (let u of query.url)`
loop). -/
def firstUrlMatch (idx : Index) : List String → Option Resource
  | [] => none
  | u :: rest =>
    match idxGet idx u with
    | some r => some r
    | none => firstUrlMatch idx rest

/-- The `if (query.hash)` block of `getResource`: an empty-string hash is
falsy and skips the check. -/
def getResourceHashHit (idx : Index) (qhash : Option String) : Option Resource :=
  match qhash with
  | some h => if h = "" then none else idxGet idx h
  | none => none

/-- The `if (query.url)` block of `getResource`: an empty-string single url
is falsy and skips the check; a url list is truthy even when empty and each
element is looked up in order, unconditionally. -/
def getResourceUrlHit (idx : Index) (qurl : Option (Sum String (List String))) :
    Option Resource :=
  match qurl with
  | some (Sum.inl u) => if u = "" then none else idxGet idx u
  | some (Sum.inr us) => firstUrlMatch idx us
  | none => none

/-- The `if (query.ino)` block of `getResource`: a zero inode is falsy and
skips the check. -/
def getResourceInoHit (idx : Index) (qino : Option Nat) : Option Resource :=
  match qino with
  | some i => if i = 0 then none else idxGet idx (toString i)
  | none => none

/-- The `getResource` query method: return at the first hit, checking the
hash block, then the url block, then the ino block, and fall back to the
`UNKNOWN_RESOURCE` sentinel. -/
def getResource (idx : Index) (q : Query) : Resource :=
  match getResourceHashHit idx q.hash with
  | some r => r
  | none =>
    match getResourceUrlHit idx q.url with
    | some r => r
    | none => (getResourceInoHit idx q.ino).getD UNKNOWN_RESOURCE

/-- The `cacheResource` method: index the resource under its hash, each source
uri, its inode (stringified) and its path. -/
def cacheResource (idx : Index) (r : Resource) : Index :=
  let i1 := idxSet idx r.hash r
  let i2 := r.source.uri.foldl (fun a u => idxSet a u r) i1
  let i3 := idxSet i2 (toString r.ino) r
  idxSet i3 r.path r

/-- The `uncacheResource` method: delete the hash, each source uri, the
stringified inode and the path keys. The curseforge-derived key that `load`
may have added is not deleted. -/
def uncacheResource (idx : Index) (r : Resource) : Index :=
  let i1 := idxDel idx r.hash
  let i2 := r.source.uri.foldl (fun a u => idxDel a u) i1
  let i3 := idxDel i2 (toString r.ino)
  idxDel i3 r.path

/-- The `removeResource` method: normalize the reference, return silently on
the unknown sentinel, otherwise uncache (the disk unpersist is outside the
index model). -/
def removeResource (idx : Index) (res : Sum String Resource) : Index :=
  let r := normalizeResource idx res
  if r = UNKNOWN_RESOURCE then idx else uncacheResource idx r

/-- The `renameResource` method: normalize, return silently on the unknown
sentinel, otherwise rebuild with the new name and cache the result. -/
def renameResource (idx : Index) (res : Sum String Resource) (name : String) : Index :=
  let r := normalizeResource idx res
  if r = UNKNOWN_RESOURCE then idx else cacheResource idx { r with name := name }

/-- The `updateBuilderMetadata` method: run the registry resolver over the
content and decorate the builder with the winner. The TS `type ?? builder.type`
picks the caller's hint; the spec-modelled builder carries no type of its own
before this decoration, so the hint is exactly the caller's. -/
def updateBuilderMetadata (openFs : List Nat → Except Unit FSView)
    (registry : List ResourceRegistryEntry) (b : Resource) (data : List Nat)
    (hint : Option String) : Except Unit Resource :=
  (parseResource openFs registry data b.ext hint).map (decorateBuilderFromMetadata b)

/-- Outcome of `resolveResourceTask`: the task's result together with a trace
of how many content reads and hash computations the run performed (for the
no-rehash-on-known-inode optimization). -/
structure ResolveOutcome where
  result : Except IOError (Bool × Resource)
  reads : Nat
  hashes : Nat
deriving Repr

/-- The `resolveResourceTask` body: stat (directories are rejected), look up
by inode, else read + hash and look up by hash; a hit returns the existing
resource with `imported = false`; otherwise build, resolve metadata, persist
(persistence has no index effect) and return the new resource with
`imported = true`. The trace counts the `readFile` and `sha1` calls. -/
def resolveResourceTask (sha1 : List Nat → String)
    (openFs : List Nat → Except Unit FSView) (registry : List ResourceRegistryEntry)
    (fs : FS) (idx : Index) (opt : ImportOption) : ResolveOutcome :=
  match statFile fs opt.path with
  | Except.error e => { result := Except.error e, reads := 0, hashes := 0 }
  | Except.ok st =>
    if st.isDir then { result := Except.error IOError.eisdir, reads := 0, hashes := 0 }
    else
      match idxGet idx (toString st.ino) with
      | some r => { result := Except.ok (false, r), reads := 0, hashes := 0 }
      | none =>
        match readFileFS fs opt.path with
        | Except.error e => { result := Except.error e, reads := 1, hashes := 0 }
        | Except.ok data =>
          let hash := sha1 data
          match idxGet idx hash with
          | some r => { result := Except.ok (false, r), reads := 1, hashes := 1 }
          | none =>
            let b0 := createResourceBuilder opt.sourceCurseforge
            let b1 := decorateBuilderWithPathAndHash b0 opt.path hash
            let b2 := decorateBuilderSourceUrls b1 opt.url
            let b3 := decorateBuilderFromStat b2 st
            match updateBuilderMetadata openFs registry b3 data opt.rtype with
            | Except.error _ =>
              { result := Except.error IOError.parseFailed, reads := 1, hashes := 1 }
            | Except.ok b4 =>
              { result := Except.ok (true, b4), reads := 1, hashes := 1 }

/-- Outcome of `importResource`: the call's result, the index after the call
and the trace. -/
structure ImportOutcome where
  result : Except IOError (Bool × Resource)
  index : Index
  reads : Nat
  hashes : Nat
deriving Repr

/-- The `importResource` method: run the resolve task; a newly imported
resource is cached, an existing one leaves the index untouched, and an error
propagates with the index exactly as before. -/
def importResource (sha1 : List Nat → String)
    (openFs : List Nat → Except Unit FSView) (registry : List ResourceRegistryEntry)
    (fs : FS) (idx : Index) (opt : ImportOption) : ImportOutcome :=
  let o := resolveResourceTask sha1 openFs registry fs idx opt
  match o.result with
  | Except.error e => { result := Except.error e, index := idx, reads := o.reads, hashes := o.hashes }
  | Except.ok (imported, r) =>
    { result := Except.ok (imported, r)
      index := if imported then cacheResource idx r else idx
      reads := o.reads
      hashes := o.hashes }

/-- The persisted sidecar JSON (`ResourceSchema`): the serialized resource
minus the volatile size/ino/ext fields, which are re-derived by a stat at load
time. -/
structure SidecarData where
  path : String
  hash : String
  name : String
  rtype : String
  domain : String
  tags : List String
  metadata : Metadata
  source : SourceInformation
deriving DecidableEq, Repr

/-- The object an unreadable or unparsable sidecar degrades to: `getPersistence`
falls back to the string `"{}"` on a read failure and to `{}` on a parse
failure, so every field is absent/empty. -/
def emptySidecar : SidecarData :=
  { path := ""
    hash := ""
    name := ""
    rtype := ""
    domain := ""
    tags := []
    metadata := Metadata.empty
    source := { uri := [], curseforge := none, date := "" } }

/-- The `getPersistence` method of Service restricted to sidecar files: a
readable sidecar yields its data, an unreadable or corrupt one yields the
empty object; it never throws. -/
def getPersistence (sidecar : Option SidecarData) : SidecarData :=
  sidecar.getD emptySidecar

/-- On-disk layout for `load`: for each domain folder, the parsed sidecar
files it contains (`none` marks a sidecar whose read or JSON parse fails). -/
abbrev Disk := List (String × List (Option SidecarData))

/-- The per-domain body of `load`: read each sidecar through `getPersistence`,
resolve the resource file path (absolute or relative to the domain folder),
stat the file for size and inode, and build the resource. A stat rejection escapes
the domain's async function, so it aborts the whole list. -/
def loadDomain (fs : FS) (root domain : String) :
    List (Option SidecarData) → Except IOError (List Resource)
  | [] => Except.ok []
  | entry :: rest =>
    let data := getPersistence entry
    let rpath := if isAbsolutePath data.path then data.path
                 else joinPath (joinPath root domain) data.path
    match statFile fs rpath with
    | Except.error e => Except.error e
    | Except.ok st =>
      match loadDomain fs root domain rest with
      | Except.error e => Except.error e
      | Except.ok restRes =>
        Except.ok ({ hash := data.hash
                     path := data.path
                     ino := st.ino
                     size := st.size
                     ext := extname rpath
                     rtype := data.rtype
                     domain := data.domain
                     name := data.name
                     tags := data.tags
                     metadata := data.metadata
                     source := data.source } :: restRes)

/-- Collect every domain of the disk (the `Promise.all` across domain
folders: one rejection rejects the whole load). -/
def loadAllDomains (fs : FS) (root : String) : Disk → Except IOError (List Resource)
  | [] => Except.ok []
  | (domain, entries) :: rest =>
    match loadDomain fs root domain entries with
    | Except.error e => Except.error e
    | Except.ok rs =>
      match loadAllDomains fs root rest with
      | Except.error e => Except.error e
      | Except.ok rest' => Except.ok (rs ++ rest')

/-- Index population of `load` for one resource: hash key, every source uri
key, the curseforge-derived key when the source carries a curseforge
reference, and the raw path key. -/
def loadIndexResource (idx : Index) (r : Resource) : Index :=
  let i1 := idxSet idx r.hash r
  let i2 := r.source.uri.foldl (fun a u => idxSet a u r) i1
  let i3 := match r.source.curseforge with
            | some cf => idxSet i2 (getCurseforgeUrl cf.projectId cf.fileId) r
            | none => i2
  idxSet i3 r.path r

/-- The trailing async inode pass of `load`: `stat(resource.path)` adds the
stringified inode key; its failure is caught, logged and skipped. -/
def loadInoPass (fs : FS) (idx : Index) (rs : List Resource) : Index :=
  rs.foldl (fun a r =>
    match statFile fs r.path with
    | Except.ok st => idxSet a (toString st.ino) r
    | Except.error _ => a) idx

/-- The `load` method of ResourceService: rebuild the index from the sidecar
files on disk. -/
def load (fs : FS) (root : String) (disk : Disk) : Except IOError Index :=
  match loadAllDomains fs root disk with
  | Except.error e => Except.error e
  | Except.ok rs =>
    Except.ok (loadInoPass fs (rs.foldl loadIndexResource []) rs)

/-- Per-instance deployment state (the `mods` array of the instance store
module). -/
structure InstanceState where
  mods : List Resource
deriving DecidableEq, Repr

/-- The `instanceModAdd` mutation: push the resources onto the deployed
list. -/
def instanceModAdd (st : InstanceState) (rs : List Resource) : InstanceState :=
  { st with mods := st.mods ++ rs }

/-- The `instanceModRemove` mutation: for each given resource, drop every
deployed entry with the same hash. -/
def instanceModRemove (st : InstanceState) (rs : List Resource) : InstanceState :=
  { st with mods := rs.foldl (fun ms r => ms.filter (fun m => !(m.hash == r.hash))) st.mods }

/-- Modelled from the spec: `InstanceResourceService.deploy` is not under src
(only its caller `useInstanceMods.commit` is). Following the spec's state
machine (`deploy` is Undeployed→Deployed and idempotent) it commits
`instanceModAdd` for the resources whose hash is not already deployed. -/
def deploy (st : InstanceState) (rs : List Resource) : InstanceState :=
  instanceModAdd st (rs.filter (fun r => !(st.mods.any (fun m => m.hash == r.hash))))

/-- Modelled from the spec: `InstanceResourceService.undeploy` commits
`instanceModRemove` for the given resources; removal of an absent hash is a
no-op by the mutation's filter semantics. -/
def undeploy (st : InstanceState) (rs : List Resource) : InstanceState :=
  instanceModRemove st rs

/-- The hint-and-extension filtered part of the candidate list, before the
unknown fallback is appended. -/
def buildChainsPrefix (registry : List ResourceRegistryEntry) (ext : String)
    (typeHint : Option String) : List ResourceRegistryEntry :=
  if typeHint.getD "" = "*" ∨ typeHint.getD "" = "" then
    registry.filter (fun r => r.ext == ext)
  else
    registry.filter (fun r => r.domain == typeHint.getD "" || r.rtype == typeHint.getD "")

/-- Demo archive opener that always succeeds on the raw bytes. -/
def demoOpen : List Nat → Except Unit FSView :=
  fun d => Except.ok d

/-- Demo Forge-like descriptor whose metadata parser rejects everything. -/
def demoForgeEntry : ResourceRegistryEntry :=
  { rtype := "forge"
    domain := "mods"
    ext := ".jar"
    parseMetadata := fun _ => Except.error ()
    parseIcon := fun _ _ => Except.error ()
    getSuggestedName := fun _ => ""
    getUri := fun _ hash => "forge://" ++ hash }

/-- Demo Fabric-like descriptor whose metadata parser accepts everything and
whose icon parser fails (so the icon is swallowed to none). -/
def demoFabricEntry : ResourceRegistryEntry :=
  { rtype := "fabric"
    domain := "mods"
    ext := ".jar"
    parseMetadata := fun _ => Except.ok (Metadata.tag "fabric-mod")
    parseIcon := fun _ _ => Except.error ()
    getSuggestedName := fun _ => "demo"
    getUri := fun _ hash => "fabric://" ++ hash }

/-- The effective hash keys of a query under JS truthiness. -/
def hashKeys (qhash : Option String) : List String :=
  match qhash with
  | some h => if h = "" then [] else [h]
  | none => []

/-- The effective url keys of a query under JS truthiness (the single-string
form is skipped when empty; list elements are kept even when empty). -/
def urlKeys (qurl : Option (Sum String (List String))) : List String :=
  match qurl with
  | some (Sum.inl u) => if u = "" then [] else [u]
  | some (Sum.inr us) => us
  | none => []

/-- The effective ino key of a query under JS truthiness. -/
def inoKeys (qino : Option Nat) : List String :=
  match qino with
  | some i => if i = 0 then [] else [toString i]
  | none => []

/-- The full effective key list of a query in the checking order hash, then
url, then ino. -/
def effectiveKeys (q : Query) : List String :=
  hashKeys q.hash ++ urlKeys q.url ++ inoKeys q.ino

/-- Specification-side query semantics (the amended claim C9): the resource
of the first effective key that matches, the unknown sentinel otherwise. -/
def querySpec (idx : Index) (q : Query) : Resource :=
  (firstUrlMatch idx (effectiveKeys q)).getD UNKNOWN_RESOURCE

/-- Resource A of the C9 counterexample: a resource whose content hash is the
empty string (exactly the shape `load` produces for a corrupted sidecar, and
the shape of the unknown sentinel itself). -/
def c9A : Resource :=
  { hash := ""
    path := "/a"
    ino := 7
    size := 1
    ext := ""
    rtype := "unknown"
    domain := "unknown"
    name := "a"
    tags := []
    metadata := Metadata.empty
    source := { uri := [], curseforge := none, date := "" } }

/-- Resource B of the C9 counterexample. -/
def c9B : Resource :=
  { hash := "hb"
    path := "/b"
    ino := 5
    size := 1
    ext := ""
    rtype := "forge"
    domain := "mods"
    name := "b"
    tags := []
    metadata := Metadata.empty
    source := { uri := [], curseforge := none, date := "" } }

/-- The C9 counterexample index: both resources cached through
`cacheResource`. -/
def c9idx : Index := cacheResource (cacheResource [] c9A) c9B

/-- The C9 counterexample query: its hash field is present and matches A's
key, its ino field matches B's key. -/
def c9q : Query := { hash := some "", url := none, ino := some 5 }

/-- A query matches no key of the index: every key any of its fields could
check is absent. -/
def queryMisses (idx : Index) (q : Query) : Prop :=
  (∀ h, q.hash = some h → idxGet idx h = none) ∧
  (∀ u, q.url = some (Sum.inl u) → idxGet idx u = none) ∧
  (∀ us, q.url = some (Sum.inr us) → ∀ u ∈ us, idxGet idx u = none) ∧
  (∀ i, q.ino = some i → idxGet idx (toString i) = none)

/-- Demo mod resource for the C8 witness. -/
def demoMod : Resource :=
  { hash := "modhash"
    path := "/mods/demo.jar"
    ino := 11
    size := 4
    ext := ".jar"
    rtype := "forge"
    domain := "mods"
    name := "demo"
    tags := []
    metadata := Metadata.empty
    source := { uri := [], curseforge := none, date := "" } }

/-- Demo digest for concrete runs: a decimal rendering of the bytes. -/
def demoSha1 (d : List Nat) : String :=
  "sha-" ++ String.intercalate "-" (d.map toString)

/-- File system for the C2 witness: one regular file. -/
def c2fs : FS := [("/w/f.jar", FileNode.file 21 [9])]

/-- Import options for the C2 witness. -/
def c2opt : ImportOption := { path := "/w/f.jar" }

/-- File system for the C1 scenario: identical bytes under two paths with two
different inodes. -/
def c1fs : FS :=
  [("/a/mod.jar", FileNode.file 1 [7, 7]), ("/b/mod.jar", FileNode.file 2 [7, 7])]

/-- First import options of the C1 scenario, with the caller-derived uri of
the first path. -/
def c1opt1 : ImportOption := { path := "/a/mod.jar", url := ["ua"] }

/-- Second import options of the C1 scenario, with the caller-derived uri of
the second path. -/
def c1opt2 : ImportOption := { path := "/b/mod.jar", url := ["ub"] }

/-- Outcome of the first C1 import. -/
def c1o1 : ImportOutcome := importResource demoSha1 demoOpen [demoForgeEntry] c1fs [] c1opt1

/-- Outcome of the second C1 import. -/
def c1o2 : ImportOutcome :=
  importResource demoSha1 demoOpen [demoForgeEntry] c1fs c1o1.index c1opt2

/-- The single resource persisted by the C1 scenario. -/
def c1R : Resource :=
  match c1o1.result with
  | Except.ok (_, r) => r
  | Except.error _ => UNKNOWN_RESOURCE

/-- The sidecar of the C5 scenario: a persisted resource whose source carries
a curseforge project/file reference. -/
def c5sidecar : SidecarData :=
  { path := "/data/m.jar"
    hash := "h"
    name := "m"
    rtype := "forge"
    domain := "mods"
    tags := []
    metadata := Metadata.empty
    source := { uri := ["u"], curseforge := some { projectId := 7, fileId := 9 }, date := "" } }

/-- File system of the C5 scenario. -/
def c5fs : FS := [("/data/m.jar", FileNode.file 5 [1, 2, 3])]

/-- Disk layout of the C5 scenario: one readable sidecar in the mods domain. -/
def c5disk : Disk := [("mods", [some c5sidecar])]

/-- The resource `load` reconstructs in the C5 scenario. -/
def c5R : Resource :=
  { hash := "h"
    path := "/data/m.jar"
    ino := 5
    size := 3
    ext := ".jar"
    rtype := "forge"
    domain := "mods"
    name := "m"
    tags := []
    metadata := Metadata.empty
    source := { uri := ["u"], curseforge := some { projectId := 7, fileId := 9 }, date := "" } }

/-- The index `load` rebuilds in the C5 scenario. -/
def c5idx : Index :=
  match load c5fs "/r" c5disk with
  | Except.ok i => i
  | Except.error _ => []

/-- The index after removing the loaded resource by its hash key. -/
def c5idx2 : Index := removeResource c5idx (Sum.inl "h")

/-- A readable sidecar whose data file exists (C6 scenario). -/
def c6good : SidecarData :=
  { path := "/data/a.jar"
    hash := "ha"
    name := "a"
    rtype := "forge"
    domain := "mods"
    tags := []
    metadata := Metadata.empty
    source := { uri := [], curseforge := none, date := "" } }

/-- A readable sidecar whose referenced data file is missing (C6 scenario). -/
def c6bad : SidecarData :=
  { path := "/data/missing.jar"
    hash := "hb"
    name := "b"
    rtype := "forge"
    domain := "mods"
    tags := []
    metadata := Metadata.empty
    source := { uri := [], curseforge := none, date := "" } }

/-- File system of the C6 scenario: only the good sidecar's data file exists. -/
def c6fs : FS := [("/data/a.jar", FileNode.file 3 [1])]

/-- Disk layout of the C6 scenario: one good entry and one entry referring to
missing data, in the same domain. -/
def c6disk : Disk := [("mods", [some c6good, some c6bad])]

/-- The partial index the claim expects: the good entry alone loads fine. -/
def c6partial : Index :=
  match load c6fs "/r" [("mods", [some c6good])] with
  | Except.ok i => i
  | Except.error _ => []

theorem idxGet_set_self (idx : Index) (k : String) (v : Resource) :
    idxGet (idxSet idx k v) k = some v := by
  simp [idxSet, idxGet]

theorem idxGet_set_ne (idx : Index) (k k' : String) (v : Resource) (h : k ≠ k') :
    idxGet (idxSet idx k' v) k = idxGet idx k := by
  simp only [idxSet, idxGet, beq_iff_eq, if_neg h]
  induction idx with
  | nil => simp [idxGet]
  | cons hd tl ih =>
    cases hd with
    | mk k₀ v₀ =>
      by_cases hk : k₀ == k'
      · have : k₀ = k' := by simpa using hk
        subst this
        have hne : ¬ (k == k₀) := by simpa using h
        simp [idxGet, hne, hk, ih]
      · by_cases hkk : k == k₀
        · simp [idxGet, hk, hkk]
        · simp [idxGet, hk, hkk, ih]

theorem idxGet_del_self (idx : Index) (k : String) :
    idxGet (idxDel idx k) k = none := by
  induction idx with
  | nil => simp [idxDel, idxGet]
  | cons hd tl ih =>
    cases hd with
    | mk k₀ v₀ =>
      by_cases hk : k₀ == k
      · simpa [idxDel, hk] using ih
      · have hkk : ¬ (k == k₀) := fun hc => hk (by simpa using (by simpa using hc : k = k₀).symm)
        simpa [idxDel, hk, idxGet, hkk] using ih

theorem idxGet_del_ne (idx : Index) (k k' : String) (h : k ≠ k') :
    idxGet (idxDel idx k') k = idxGet idx k := by
  induction idx with
  | nil => simp [idxDel]
  | cons hd tl ih =>
    cases hd with
    | mk k₀ v₀ =>
      by_cases hk : k₀ == k'
      · have : k₀ = k' := by simpa using hk
        subst this
        have hne : ¬ (k == k₀) := by simpa using h
        simpa [idxDel, hk, idxGet, hne] using ih
      · by_cases hkk : k == k₀
        · simp [idxDel, hk, idxGet, hkk]
        · simpa [idxDel, hk, idxGet, hkk] using ih

theorem tryEntries_unknown_last (fs : FSView) (l : List ResourceRegistryEntry) :
    ∃ r, tryEntries fs (l ++ [UNKNOWN_ENTRY]) = Except.ok r := by
  induction l with
  | nil =>
    exact ⟨{ entry := UNKNOWN_ENTRY, metadata := some Metadata.empty, icon := none }, rfl⟩
  | cons hd tl ih =>
    simp only [List.cons_append, tryEntries]
    cases hmi : parseMetadataAndIcon hd fs with
    | ok v => exact ⟨{ entry := hd, metadata := some v.1, icon := v.2 }, rfl⟩
    | error e => exact ih

theorem tryEntries_first_success (fs : FSView) (pre : List ResourceRegistryEntry)
    (entry : ResourceRegistryEntry) (post : List ResourceRegistryEntry) (m : Metadata)
    (hpre : ∀ e ∈ pre, e.parseMetadata fs = Except.error ())
    (hm : entry.parseMetadata fs = Except.ok m) :
    tryEntries fs (pre ++ entry :: post) =
      Except.ok { entry := entry, metadata := some m, icon := (entry.parseIcon m fs).toOption } := by
  induction pre with
  | nil =>
    simp [tryEntries, parseMetadataAndIcon, hm]
  | cons hd tl ih =>
    have hhd : hd.parseMetadata fs = Except.error () := hpre hd (by simp)
    simp only [List.cons_append, tryEntries, parseMetadataAndIcon, hhd]
    exact ih (fun e he => hpre e (by simp [he]))

theorem tryEntries_all_fail (fs : FSView) (l : List ResourceRegistryEntry)
    (hall : ∀ e ∈ l, e.parseMetadata fs = Except.error ()) :
    tryEntries fs (l ++ [UNKNOWN_ENTRY]) =
      Except.ok { entry := UNKNOWN_ENTRY, metadata := some Metadata.empty, icon := none } := by
  have := tryEntries_first_success fs l UNKNOWN_ENTRY [] Metadata.empty hall rfl
  simpa [UNKNOWN_ENTRY] using this

theorem foldl_set_get_not_mem (us : List String) (idx : Index) (k : String) (r : Resource)
    (h : k ∉ us) :
    idxGet (us.foldl (fun a u => idxSet a u r) idx) k = idxGet idx k := by
  induction us generalizing idx with
  | nil => rfl
  | cons u rest ih =>
    have hu : k ≠ u := fun hc => h (by simp [hc])
    have hrest : k ∉ rest := fun hc => h (by simp [hc])
    simpa [List.foldl_cons, ih (idxSet idx u r) hrest] using idxGet_set_ne idx k u r hu

theorem foldl_set_get_mem (us : List String) (idx : Index) (k : String) (r : Resource)
    (h : k ∈ us) :
    idxGet (us.foldl (fun a u => idxSet a u r) idx) k = some r := by
  induction us generalizing idx with
  | nil => cases h
  | cons u rest ih =>
    by_cases hrest : k ∈ rest
    · simpa [List.foldl_cons] using ih (idxSet idx u r) hrest
    · have hu : k = u := by
        rcases List.mem_cons.mp h with h' | h'
        · exact h'
        · exact absurd h' hrest
      subst hu
      simpa [List.foldl_cons, foldl_set_get_not_mem rest (idxSet idx k r) k r hrest] using
        idxGet_set_self idx k r

theorem cacheResource_get_mem (idx : Index) (r : Resource) (k : String)
    (h : k = r.hash ∨ k ∈ r.source.uri ∨ k = toString r.ino ∨ k = r.path) :
    idxGet (cacheResource idx r) k = some r := by
  unfold cacheResource
  by_cases hpath : k = r.path
  · subst hpath
    exact idxGet_set_self _ _ _
  · rw [idxGet_set_ne _ _ _ _ hpath]
    by_cases hino : k = toString r.ino
    · subst hino
      exact idxGet_set_self _ _ _
    · rw [idxGet_set_ne _ _ _ _ hino]
      by_cases huri : k ∈ r.source.uri
      · exact foldl_set_get_mem _ _ _ _ huri
      · rw [foldl_set_get_not_mem _ _ _ _ huri]
        have hhash : k = r.hash := by tauto
        subst hhash
        exact idxGet_set_self _ _ _

theorem cacheResource_get_not_mem (idx : Index) (r : Resource) (k : String)
    (h : ¬ (k = r.hash ∨ k ∈ r.source.uri ∨ k = toString r.ino ∨ k = r.path)) :
    idxGet (cacheResource idx r) k = idxGet idx k := by
  push_neg at h
  obtain ⟨h1, h2, h3, h4⟩ := h
  unfold cacheResource
  rw [idxGet_set_ne _ _ _ _ h4, idxGet_set_ne _ _ _ _ h3,
    foldl_set_get_not_mem _ _ _ _ h2, idxGet_set_ne _ _ _ _ h1]

theorem cacheResource_values (idx : Index) (r : Resource) (k : String) (v : Resource)
    (h : idxGet (cacheResource idx r) k = some v) :
    v = r ∨ idxGet idx k = some v := by
  by_cases hm : k = r.hash ∨ k ∈ r.source.uri ∨ k = toString r.ino ∨ k = r.path
  · left
    have := cacheResource_get_mem idx r k hm
    rw [this] at h
    exact (Option.some_inj.mp h).symm
  · right
    rw [cacheResource_get_not_mem idx r k hm] at h
    exact h

theorem buildChains_eq_prefix_append (registry : List ResourceRegistryEntry)
    (ext : String) (typeHint : Option String) :
    buildChains registry ext typeHint = buildChainsPrefix registry ext typeHint ++ [UNKNOWN_ENTRY] := by
  rfl

theorem buildChainsPrefix_subset (registry : List ResourceRegistryEntry) (ext : String)
    (typeHint : Option String) (e : ResourceRegistryEntry)
    (he : e ∈ buildChainsPrefix registry ext typeHint) : e ∈ registry := by
  unfold buildChainsPrefix at he
  split at he <;> exact (List.mem_filter.mp he).1

/-- Claim C3: resolution builds the candidate list (extension matches when the
hint is absent or the wildcard, otherwise entries whose type or domain equals
the hint, with the unknown descriptor appended last — the `buildChains`
definition) and attempts candidates strictly in order: whenever every
candidate before `entry` fails to parse and `entry`'s metadata parse succeeds,
the result is `entry`'s, whatever candidates follow (they are never
consulted), and a `parseIcon` failure alone only yields a result with no icon
rather than rejecting the candidate. -/
theorem claim3_fallback_ordering
    (openFs : List Nat → Except Unit FSView) (registry : List ResourceRegistryEntry)
    (data : List Nat) (ext : String) (hint : Option String) (fsv : FSView)
    (pre : List ResourceRegistryEntry) (entry : ResourceRegistryEntry)
    (post : List ResourceRegistryEntry) (m : Metadata)
    (hopen : openFs data = Except.ok fsv)
    (hchain : buildChains registry ext hint = pre ++ entry :: post)
    (hpre : ∀ e ∈ pre, e.parseMetadata fsv = Except.error ())
    (hm : entry.parseMetadata fsv = Except.ok m) :
    parseResource openFs registry data ext hint =
      Except.ok { entry := entry, metadata := some m,
                  icon := (entry.parseIcon m fsv).toOption } := by
  unfold parseResource
  rw [hopen, hchain]
  exact tryEntries_first_success fsv pre entry post m hpre hm

/-- Witness for C3: with the registry [Forge, Fabric] and a file Forge rejects
but Fabric accepts, resolution returns the Fabric result (not Unknown), with
the icon failure swallowed. -/
theorem claim3_fallback_ordering_witness :
    parseResource demoOpen [demoForgeEntry, demoFabricEntry] [1, 2] ".jar" none =
      Except.ok { entry := demoFabricEntry, metadata := some (Metadata.tag "fabric-mod"),
                  icon := none } :=
  claim3_fallback_ordering demoOpen [demoForgeEntry, demoFabricEntry] [1, 2] ".jar" none
    [1, 2] [demoForgeEntry] demoFabricEntry [UNKNOWN_ENTRY] (Metadata.tag "fabric-mod")
    rfl rfl (by intro e he; simp only [List.mem_singleton] at he; subst he; rfl) rfl

/-- Claim C4: resolution never propagates an error — for every opener,
registry and input it returns a result — and whenever every registered
candidate's metadata parse fails (and also when the archive cannot be opened)
the result is the unknown descriptor with empty (or absent) metadata and no
icon. -/
theorem claim4_universal_fallback
    (openFs : List Nat → Except Unit FSView) (registry : List ResourceRegistryEntry)
    (data : List Nat) (ext : String) (hint : Option String) :
    ∃ r, parseResource openFs registry data ext hint = Except.ok r ∧
      ((∀ fsv, openFs data = Except.ok fsv →
          ∀ e ∈ registry, e.parseMetadata fsv = Except.error ()) →
        r.entry = UNKNOWN_ENTRY ∧ (r.metadata = none ∨ r.metadata = some Metadata.empty) ∧
          r.icon = none) := by
  cases hopen : openFs data with
  | error e =>
    refine ⟨{ entry := UNKNOWN_ENTRY, metadata := none, icon := none }, ?_, ?_⟩
    · simp [parseResource, hopen]
    · intro _
      exact ⟨rfl, Or.inl rfl, rfl⟩
  | ok fsv =>
    obtain ⟨r, hr⟩ := tryEntries_unknown_last fsv (buildChainsPrefix registry ext hint)
    refine ⟨r, ?_, ?_⟩
    · simp only [parseResource, hopen]
      rw [buildChains_eq_prefix_append]
      exact hr
    · intro hall
      have hfail : ∀ e ∈ buildChainsPrefix registry ext hint,
          e.parseMetadata fsv = Except.error () :=
        fun e he => hall fsv rfl e (buildChainsPrefix_subset registry ext hint e he)
      have h2 := tryEntries_all_fail fsv (buildChainsPrefix registry ext hint) hfail
      rw [h2] at hr
      have hru : r = { entry := UNKNOWN_ENTRY, metadata := some Metadata.empty, icon := none } := by
        simpa using hr.symm
      subst hru
      exact ⟨rfl, Or.inr rfl, rfl⟩

/-- Witness for C4: with a registry holding only the rejecting Forge
descriptor and a file it rejects, resolution still succeeds and yields the
unknown result with empty metadata and no icon. -/
theorem claim4_universal_fallback_witness :
    ∃ r, parseResource demoOpen [demoForgeEntry] [3] ".jar" none = Except.ok r ∧
      (r.entry = UNKNOWN_ENTRY ∧ (r.metadata = none ∨ r.metadata = some Metadata.empty) ∧
        r.icon = none) := by
  obtain ⟨r, h1, h2⟩ := claim4_universal_fallback demoOpen [demoForgeEntry] [3] ".jar" none
  refine ⟨r, h1, h2 ?_⟩
  intro fsv _ e he
  simp only [List.mem_singleton] at he
  subst he
  rfl

theorem firstUrlMatch_append (idx : Index) (a b : List String) :
    firstUrlMatch idx (a ++ b) =
      match firstUrlMatch idx a with
      | some r => some r
      | none => firstUrlMatch idx b := by
  induction a with
  | nil => simp [firstUrlMatch]
  | cons u rest ih =>
    simp only [List.cons_append, firstUrlMatch]
    cases idxGet idx u <;> simp [ih]

theorem hashHit_eq_firstMatch (idx : Index) (qhash : Option String) :
    getResourceHashHit idx qhash = firstUrlMatch idx (hashKeys qhash) := by
  cases qhash with
  | none => rfl
  | some h =>
    by_cases hh : h = ""
    · simp [getResourceHashHit, hashKeys, hh, firstUrlMatch]
    · cases hg : idxGet idx h <;> simp [getResourceHashHit, hashKeys, hh, hg, firstUrlMatch]

theorem urlHit_eq_firstMatch (idx : Index) (qurl : Option (Sum String (List String))) :
    getResourceUrlHit idx qurl = firstUrlMatch idx (urlKeys qurl) := by
  cases qurl with
  | none => rfl
  | some su =>
    cases su with
    | inl u =>
      by_cases hu : u = ""
      · simp [getResourceUrlHit, urlKeys, hu, firstUrlMatch]
      · cases hg : idxGet idx u <;> simp [getResourceUrlHit, urlKeys, hu, hg, firstUrlMatch]
    | inr us => rfl

theorem inoHit_eq_firstMatch (idx : Index) (qino : Option Nat) :
    getResourceInoHit idx qino = firstUrlMatch idx (inoKeys qino) := by
  cases qino with
  | none => rfl
  | some i =>
    by_cases hi : i = 0
    · simp [getResourceInoHit, inoKeys, hi, firstUrlMatch]
    · cases hg : idxGet idx (toString i) <;>
        simp [getResourceInoHit, inoKeys, hi, hg, firstUrlMatch]

/-- Counterexample to claim C9 as stated: the query's hash key `""` matches
resource A in the index, yet `getResource` returns B (found by ino), because
an empty-string hash is falsy in JS and its check is skipped — the first
matching key does not win. -/
theorem claim9_counterexample :
    idxGet c9idx "" = some c9A ∧ getResource c9idx c9q = c9B ∧ c9A ≠ c9B := by
  refine ⟨by decide, by decide, by decide⟩

/-- Claim C9 as amended: `getResource` returns the resource of the first
matching key, checking the hash key, then the url key(s) in order, then the
ino key, except that a falsy key (an empty-string hash, an empty-string
single url, a zero ino) is treated as absent and skipped; elements of a url
list are checked even when empty. -/
theorem claim9_query_order_amended (idx : Index) (q : Query) :
    getResource idx q = querySpec idx q := by
  unfold getResource querySpec effectiveKeys
  rw [firstUrlMatch_append, firstUrlMatch_append,
    ← hashHit_eq_firstMatch, ← urlHit_eq_firstMatch, ← inoHit_eq_firstMatch]
  cases getResourceHashHit idx q.hash <;>
    cases getResourceUrlHit idx q.url <;>
      cases getResourceInoHit idx q.ino <;> simp

theorem firstUrlMatch_none (idx : Index) (us : List String)
    (h : ∀ u ∈ us, idxGet idx u = none) : firstUrlMatch idx us = none := by
  induction us with
  | nil => rfl
  | cons u rest ih =>
    simp only [firstUrlMatch, h u (by simp)]
    exact ih (fun v hv => h v (by simp [hv]))

/-- Claim C10: a query that matches no key returns the shared frozen
`UNKNOWN_RESOURCE` sentinel (with type and domain `unknown` and empty hash
and path) rather than an absent value or an error; `normalizeResource` maps
any unrecognized string key to the same sentinel; and `removeResource` and
`renameResource` on an unrecognized string reference return silently with the
index untouched. -/
theorem claim10_unknown_sentinel (idx : Index) (q : Query) (s n : String) :
    (queryMisses idx q → getResource idx q = UNKNOWN_RESOURCE) ∧
    (UNKNOWN_RESOURCE.rtype = "unknown" ∧ UNKNOWN_RESOURCE.domain = "unknown" ∧
      UNKNOWN_RESOURCE.hash = "" ∧ UNKNOWN_RESOURCE.path = "") ∧
    (idxGet idx s = none →
      normalizeResource idx (Sum.inl s) = UNKNOWN_RESOURCE ∧
      removeResource idx (Sum.inl s) = idx ∧
      renameResource idx (Sum.inl s) n = idx) := by
  refine ⟨?_, ⟨rfl, rfl, rfl, rfl⟩, ?_⟩
  · intro ⟨hh, hu1, hu2, hi⟩
    have hhash : getResourceHashHit idx q.hash = none := by
      cases hq : q.hash with
      | none => rfl
      | some h =>
        by_cases h0 : h = "" <;> simp [getResourceHashHit, h0, hh h hq]
    have hurl : getResourceUrlHit idx q.url = none := by
      cases hq : q.url with
      | none => rfl
      | some su =>
        cases su with
        | inl u => by_cases h0 : u = "" <;> simp [getResourceUrlHit, h0, hu1 u hq]
        | inr us =>
          simpa [getResourceUrlHit] using firstUrlMatch_none idx us (hu2 us hq)
    have hino : getResourceInoHit idx q.ino = none := by
      cases hq : q.ino with
      | none => rfl
      | some i => by_cases h0 : i = 0 <;> simp [getResourceInoHit, h0, hi i hq]
    simp [getResource, hhash, hurl, hino]
  · intro hs
    have hn : normalizeResource idx (Sum.inl s) = UNKNOWN_RESOURCE := by
      simp [normalizeResource, hs]
    refine ⟨hn, ?_, ?_⟩
    · simp [removeResource, hn]
    · simp [renameResource, hn]

/-- Witness for C10 at the empty index with a fully populated query and an
unknown string reference. -/
theorem claim10_unknown_sentinel_witness :
    getResource [] { hash := some "x", url := some (Sum.inr ["y"]), ino := some 3 } =
        UNKNOWN_RESOURCE ∧
      normalizeResource [] (Sum.inl "z") = UNKNOWN_RESOURCE ∧
      removeResource [] (Sum.inl "z") = [] ∧
      renameResource [] (Sum.inl "z") "renamed" = [] := by
  obtain ⟨h1, _, h3⟩ :=
    claim10_unknown_sentinel [] { hash := some "x", url := some (Sum.inr ["y"]), ino := some 3 }
      "z" "renamed"
  have hmiss : queryMisses [] { hash := some "x", url := some (Sum.inr ["y"]), ino := some 3 } := by
    refine ⟨?_, ?_, ?_, ?_⟩ <;> intros <;> simp_all [idxGet]
  obtain ⟨g1, g2, g3⟩ := h3 rfl
  exact ⟨h1 hmiss, g1, g2, g3⟩

theorem instanceModRemove_absent (st : InstanceState) (rs : List Resource)
    (h : ∀ r ∈ rs, ∀ m ∈ st.mods, m.hash ≠ r.hash) :
    instanceModRemove st rs = st := by
  cases st with
  | mk mods =>
    simp only [instanceModRemove, InstanceState.mk.injEq]
    induction rs with
    | nil => rfl
    | cons r rest ih =>
      have hid : mods.filter (fun m => !(m.hash == r.hash)) = mods := by
        apply List.filter_eq_self.mpr
        intro m hm
        simp [h r (by simp) m hm]
      simp only [List.foldl_cons, hid]
      exact ih (fun r' hr' m hm => h r' (by simp [hr']) m hm)

/-- Claim C8: deploying a resource twice leaves the instance's deployed set
with exactly one entry carrying its hash, and undeploying resources none of
which is deployed leaves the state unchanged (and raises no error — the
operations are total). `deploy`/`undeploy` are spec-modelled idempotent
guards over the src mutations `instanceModAdd`/`instanceModRemove`. -/
theorem claim8_deploy_idempotent (st : InstanceState) (R : Resource) (rs : List Resource)
    (h0 : ∀ m ∈ st.mods, m.hash ≠ R.hash)
    (h1 : ∀ r ∈ rs, ∀ m ∈ st.mods, m.hash ≠ r.hash) :
    ((deploy (deploy st [R]) [R]).mods.filter (fun m => m.hash == R.hash)).length = 1 ∧
      undeploy st rs = st := by
  constructor
  · have hany : st.mods.any (fun m => m.hash == R.hash) = false := by
      simp only [List.any_eq_false]
      intro m hm
      simp [h0 m hm]
    have hd1 : (deploy st [R]).mods = st.mods ++ [R] := by
      simp [deploy, instanceModAdd, hany]
    have hany2 : (deploy st [R]).mods.any (fun m => m.hash == R.hash) = true := by
      rw [hd1]
      simp
    have hd2 : (deploy (deploy st [R]) [R]).mods = (deploy st [R]).mods := by
      simp [deploy, instanceModAdd, hany2]
    have hnil : st.mods.filter (fun m => m.hash == R.hash) = [] := by
      apply List.filter_eq_nil_iff.mpr
      intro m hm
      simp [h0 m hm]
    rw [hd2, hd1, List.filter_append, hnil]
    simp
  · exact instanceModRemove_absent st rs h1

/-- Witness for C8 from the empty deployed set. -/
theorem claim8_deploy_idempotent_witness :
    ((deploy (deploy { mods := [] } [demoMod]) [demoMod]).mods.filter
        (fun m => m.hash == demoMod.hash)).length = 1 ∧
      undeploy { mods := [] } [demoMod] = { mods := [] } :=
  claim8_deploy_idempotent { mods := [] } demoMod [demoMod]
    (by intro m hm; cases hm) (by intro r _ m hm; cases hm)

/-- Claim C7: an import whose target is a directory, or whose stat or content
read raises an I/O error, fails with an error and leaves the index exactly as
it was (the index is only updated after a successful resolve-and-persist). The
broken-file case carries the side condition that the inode is not already
cached, since a cached inode returns before any read. -/
theorem claim7_import_error_preserves_index (sha1 : List Nat → String)
    (openFs : List Nat → Except Unit FSView) (registry : List ResourceRegistryEntry)
    (fs : FS) (idx : Index) (opt : ImportOption)
    (h : fsLookup fs opt.path = none ∨ fsLookup fs opt.path = some FileNode.dir ∨
      (∃ ino sz, fsLookup fs opt.path = some (FileNode.broken ino sz) ∧
        idxGet idx (toString ino) = none)) :
    (∃ e, (importResource sha1 openFs registry fs idx opt).result = Except.error e) ∧
      (importResource sha1 openFs registry fs idx opt).index = idx := by
  rcases h with h | h | ⟨ino, sz, h, hino⟩
  · constructor
    · exact ⟨IOError.enoent, by simp [importResource, resolveResourceTask, statFile, h]⟩
    · simp [importResource, resolveResourceTask, statFile, h]
  · constructor
    · exact ⟨IOError.eisdir, by simp [importResource, resolveResourceTask, statFile, h]⟩
    · simp [importResource, resolveResourceTask, statFile, h]
  · constructor
    · exact ⟨IOError.eio,
        by simp [importResource, resolveResourceTask, statFile, readFileFS, h, hino]⟩
    · simp [importResource, resolveResourceTask, statFile, readFileFS, h, hino]

/-- Witness for C7: importing a directory over a populated index fails and
leaves the index intact. -/
theorem claim7_import_error_preserves_index_witness :
    (∃ e, (importResource demoSha1 demoOpen [demoForgeEntry] [("/d", FileNode.dir)]
        [("k", demoMod)] { path := "/d" }).result = Except.error e) ∧
      (importResource demoSha1 demoOpen [demoForgeEntry] [("/d", FileNode.dir)]
        [("k", demoMod)] { path := "/d" }).index = [("k", demoMod)] :=
  claim7_import_error_preserves_index demoSha1 demoOpen [demoForgeEntry]
    [("/d", FileNode.dir)] [("k", demoMod)] { path := "/d" }
    (Or.inr (Or.inl (by decide)))

theorem addUri_mem_preserve (l : List String) (u v : String) (h : v ∈ l) : v ∈ addUri l u := by
  unfold addUri
  split
  · exact h
  · simp [h]

theorem addUri_mem_self (l : List String) (u : String) : u ∈ addUri l u := by
  unfold addUri
  split
  · assumption
  · simp

theorem foldl_addUri_superset (urls : List String) (l : List String) (v : String)
    (h : v ∈ urls ∨ v ∈ l) : v ∈ urls.foldl addUri l := by
  induction urls generalizing l with
  | nil =>
    rcases h with h | h
    · cases h
    · exact h
  | cons u rest ih =>
    simp only [List.foldl_cons]
    rcases h with h | h
    · rcases List.mem_cons.mp h with h | h
      · exact ih (addUri l u) (Or.inr (h ▸ addUri_mem_self l u))
      · exact ih (addUri l u) (Or.inl h)
    · exact ih (addUri l u) (Or.inr (addUri_mem_preserve l u v h))

theorem parseResource_ok (openFs : List Nat → Except Unit FSView)
    (registry : List ResourceRegistryEntry) (data : List Nat) (ext : String)
    (hint : Option String) :
    ∃ r, parseResource openFs registry data ext hint = Except.ok r := by
  cases hopen : openFs data with
  | error e =>
    exact ⟨{ entry := UNKNOWN_ENTRY, metadata := none, icon := none },
      by simp [parseResource, hopen]⟩
  | ok fsv =>
    obtain ⟨r, hr⟩ := tryEntries_unknown_last fsv (buildChainsPrefix registry ext hint)
    refine ⟨r, ?_⟩
    simp only [parseResource, hopen]
    rw [buildChains_eq_prefix_append]
    exact hr

theorem updateBuilderMetadata_ok (openFs : List Nat → Except Unit FSView)
    (registry : List ResourceRegistryEntry) (b : Resource) (data : List Nat)
    (hint : Option String) :
    ∃ b', updateBuilderMetadata openFs registry b data hint = Except.ok b' ∧
      b'.ino = b.ino ∧ b'.hash = b.hash ∧ b'.path = b.path ∧
      (∀ u ∈ b.source.uri, u ∈ b'.source.uri) := by
  obtain ⟨pr, hpr⟩ := parseResource_ok openFs registry data b.ext hint
  refine ⟨decorateBuilderFromMetadata b pr, ?_, rfl, rfl, rfl, ?_⟩
  · simp [updateBuilderMetadata, hpr, Except.map]
  · intro u hu
    simp only [decorateBuilderFromMetadata]
    exact addUri_mem_preserve _ _ _ hu

theorem resolveResourceTask_ino_hit (sha1 : List Nat → String)
    (openFs : List Nat → Except Unit FSView) (registry : List ResourceRegistryEntry)
    (fs : FS) (idx : Index) (opt : ImportOption) (ino : Nat) (c : List Nat) (r : Resource)
    (hf : fsLookup fs opt.path = some (FileNode.file ino c))
    (hino : idxGet idx (toString ino) = some r) :
    resolveResourceTask sha1 openFs registry fs idx opt =
      { result := Except.ok (false, r), reads := 0, hashes := 0 } := by
  simp [resolveResourceTask, statFile, hf, hino]

theorem resolveResourceTask_hash_hit (sha1 : List Nat → String)
    (openFs : List Nat → Except Unit FSView) (registry : List ResourceRegistryEntry)
    (fs : FS) (idx : Index) (opt : ImportOption) (ino : Nat) (c : List Nat) (r : Resource)
    (hf : fsLookup fs opt.path = some (FileNode.file ino c))
    (hino : idxGet idx (toString ino) = none)
    (hhash : idxGet idx (sha1 c) = some r) :
    resolveResourceTask sha1 openFs registry fs idx opt =
      { result := Except.ok (false, r), reads := 1, hashes := 1 } := by
  simp [resolveResourceTask, statFile, readFileFS, hf, hino, hhash]

theorem resolveResourceTask_new (sha1 : List Nat → String)
    (openFs : List Nat → Except Unit FSView) (registry : List ResourceRegistryEntry)
    (fs : FS) (idx : Index) (opt : ImportOption) (ino : Nat) (c : List Nat)
    (hf : fsLookup fs opt.path = some (FileNode.file ino c))
    (hino : idxGet idx (toString ino) = none)
    (hhash : idxGet idx (sha1 c) = none) :
    ∃ R, resolveResourceTask sha1 openFs registry fs idx opt =
        { result := Except.ok (true, R), reads := 1, hashes := 1 } ∧
      R.ino = ino ∧ R.hash = sha1 c ∧ R.path = opt.path ∧
      (∀ u ∈ opt.url, u ∈ R.source.uri) := by
  obtain ⟨b', hb', hbino, hbhash, hbpath, hburi⟩ :=
    updateBuilderMetadata_ok openFs registry
      (decorateBuilderFromStat
        (decorateBuilderSourceUrls
          (decorateBuilderWithPathAndHash (createResourceBuilder opt.sourceCurseforge)
            opt.path (sha1 c))
          opt.url)
        { isDir := false, ino := ino, size := c.length })
      c opt.rtype
  refine ⟨b', ?_, ?_, ?_, ?_, ?_⟩
  · simp [resolveResourceTask, statFile, readFileFS, hf, hino, hhash, hb']
  · rw [hbino]
    simp [decorateBuilderFromStat]
  · rw [hbhash]
    simp [decorateBuilderFromStat, decorateBuilderSourceUrls, decorateBuilderWithPathAndHash]
  · rw [hbpath]
    simp [decorateBuilderFromStat, decorateBuilderSourceUrls, decorateBuilderWithPathAndHash]
  · intro u hu
    apply hburi
    simp only [decorateBuilderFromStat, decorateBuilderSourceUrls,
      decorateBuilderWithPathAndHash, createResourceBuilder]
    exact foldl_addUri_superset opt.url [] u (Or.inl hu)

/-- Claim C2: importing the same unchanged file twice returns the resource
already cached by the first call with `imported = false`, leaves the index
exactly as the first call left it, and — whenever the inode lookup succeeds —
the second call performs no content read and no hash computation. -/
theorem claim2_idempotent_import (sha1 : List Nat → String)
    (openFs : List Nat → Except Unit FSView) (registry : List ResourceRegistryEntry)
    (fs : FS) (idx0 : Index) (opt : ImportOption) (ino : Nat) (c : List Nat)
    (hf : fsLookup fs opt.path = some (FileNode.file ino c))
    (o1 : ImportOutcome) (ho1 : o1 = importResource sha1 openFs registry fs idx0 opt)
    (o2 : ImportOutcome) (ho2 : o2 = importResource sha1 openFs registry fs o1.index opt) :
    ∃ b1 r1, o1.result = Except.ok (b1, r1) ∧ o2.result = Except.ok (false, r1) ∧
      o2.index = o1.index ∧
      ((idxGet o1.index (toString ino)).isSome → o2.reads = 0 ∧ o2.hashes = 0) := by
  subst ho1
  subst ho2
  cases h1 : idxGet idx0 (toString ino) with
  | some r =>
    have hres := resolveResourceTask_ino_hit sha1 openFs registry fs idx0 opt ino c r hf h1
    have himp : importResource sha1 openFs registry fs idx0 opt =
        { result := Except.ok (false, r), index := idx0, reads := 0, hashes := 0 } := by
      simp [importResource, hres]
    exact ⟨false, r, by simp [himp], by simp [himp], by simp [himp], fun _ => by simp [himp]⟩
  | none =>
    cases h2 : idxGet idx0 (sha1 c) with
    | some r =>
      have hres := resolveResourceTask_hash_hit sha1 openFs registry fs idx0 opt ino c r hf h1 h2
      have himp : importResource sha1 openFs registry fs idx0 opt =
          { result := Except.ok (false, r), index := idx0, reads := 1, hashes := 1 } := by
        simp [importResource, hres]
      refine ⟨false, r, by simp [himp], by simp [himp], by simp [himp], ?_⟩
      intro hS
      exfalso
      rw [himp] at hS
      simp [h1] at hS
    | none =>
      obtain ⟨R, hres, hRino, hRhash, hRpath, hRuri⟩ :=
        resolveResourceTask_new sha1 openFs registry fs idx0 opt ino c hf h1 h2
      have himp : importResource sha1 openFs registry fs idx0 opt =
          { result := Except.ok (true, R), index := cacheResource idx0 R,
            reads := 1, hashes := 1 } := by
        simp [importResource, hres]
      have hhit : idxGet (cacheResource idx0 R) (toString ino) = some R := by
        rw [← hRino]
        exact cacheResource_get_mem idx0 R _ (Or.inr (Or.inr (Or.inl rfl)))
      have hres2 := resolveResourceTask_ino_hit sha1 openFs registry fs
        (cacheResource idx0 R) opt ino c R hf hhit
      have himp2 : importResource sha1 openFs registry fs (cacheResource idx0 R) opt =
          { result := Except.ok (false, R), index := cacheResource idx0 R,
            reads := 0, hashes := 0 } := by
        simp [importResource, hres2]
      exact ⟨true, R, by simp [himp], by simp [himp, himp2], by simp [himp, himp2],
        fun _ => by simp [himp, himp2]⟩

/-- Witness for C2 at a concrete file imported twice from the empty index. -/
theorem claim2_idempotent_import_witness :
    ∃ b1 r1,
      (importResource demoSha1 demoOpen [demoForgeEntry] c2fs [] c2opt).result =
          Except.ok (b1, r1) ∧
        (importResource demoSha1 demoOpen [demoForgeEntry] c2fs
            (importResource demoSha1 demoOpen [demoForgeEntry] c2fs [] c2opt).index
            c2opt).result = Except.ok (false, r1) ∧
        (importResource demoSha1 demoOpen [demoForgeEntry] c2fs
            (importResource demoSha1 demoOpen [demoForgeEntry] c2fs [] c2opt).index
            c2opt).index =
          (importResource demoSha1 demoOpen [demoForgeEntry] c2fs [] c2opt).index ∧
        ((idxGet (importResource demoSha1 demoOpen [demoForgeEntry] c2fs [] c2opt).index
              (toString 21)).isSome →
          (importResource demoSha1 demoOpen [demoForgeEntry] c2fs
              (importResource demoSha1 demoOpen [demoForgeEntry] c2fs [] c2opt).index
              c2opt).reads = 0 ∧
            (importResource demoSha1 demoOpen [demoForgeEntry] c2fs
                (importResource demoSha1 demoOpen [demoForgeEntry] c2fs [] c2opt).index
                c2opt).hashes = 0) :=
  claim2_idempotent_import demoSha1 demoOpen [demoForgeEntry] c2fs [] c2opt 21 [9]
    (by decide) _ rfl _ rfl

/-- Claim C1 as amended: importing byte-identical content from two different
paths starting from an empty index yields exactly one resource (every index
key resolves to it), the second call returns `imported = false` and changes
nothing, and the single resource is reachable by the FIRST import's source
uris; the second import's source uris are NOT added (a uri absent after the
first call is still absent after the second). -/
theorem claim1_dedup_amended (sha1 : List Nat → String)
    (openFs : List Nat → Except Unit FSView) (registry : List ResourceRegistryEntry)
    (fs : FS) (ino1 ino2 : Nat) (c : List Nat) (opt1 opt2 : ImportOption)
    (hf1 : fsLookup fs opt1.path = some (FileNode.file ino1 c))
    (hf2 : fsLookup fs opt2.path = some (FileNode.file ino2 c))
    (o1 : ImportOutcome) (ho1 : o1 = importResource sha1 openFs registry fs [] opt1)
    (o2 : ImportOutcome) (ho2 : o2 = importResource sha1 openFs registry fs o1.index opt2) :
    ∃ R, o1.result = Except.ok (true, R) ∧ o2.result = Except.ok (false, R) ∧
      o2.index = o1.index ∧
      (∀ k r, idxGet o1.index k = some r → r = R) ∧
      (∀ u ∈ opt1.url, idxGet o2.index u = some R) ∧
      (∀ u, idxGet o1.index u = none → idxGet o2.index u = none) := by
  subst ho1
  subst ho2
  obtain ⟨R, hres1, hRino, hRhash, hRpath, hRuri⟩ :=
    resolveResourceTask_new sha1 openFs registry fs [] opt1 ino1 c hf1 rfl rfl
  have himp1 : importResource sha1 openFs registry fs [] opt1 =
      { result := Except.ok (true, R), index := cacheResource [] R,
        reads := 1, hashes := 1 } := by
    simp [importResource, hres1]
  have hvals : ∀ k r, idxGet (cacheResource [] R) k = some r → r = R := by
    intro k r h
    rcases cacheResource_values [] R k r h with h | h
    · exact h
    · cases h
  have hsec : (importResource sha1 openFs registry fs (cacheResource [] R) opt2).result =
      Except.ok (false, R) ∧
      (importResource sha1 openFs registry fs (cacheResource [] R) opt2).index =
        cacheResource [] R := by
    cases hino2 : idxGet (cacheResource [] R) (toString ino2) with
    | some r =>
      have hrR : r = R := hvals _ _ hino2
      rw [hrR] at hino2
      have hres2 := resolveResourceTask_ino_hit sha1 openFs registry fs
        (cacheResource [] R) opt2 ino2 c R hf2 hino2
      constructor <;> simp [importResource, hres2]
    | none =>
      have hh : idxGet (cacheResource [] R) (sha1 c) = some R := by
        rw [← hRhash]
        exact cacheResource_get_mem _ _ _ (Or.inl rfl)
      have hres2 := resolveResourceTask_hash_hit sha1 openFs registry fs
        (cacheResource [] R) opt2 ino2 c R hf2 hino2 hh
      constructor <;> simp [importResource, hres2]
  obtain ⟨hsr, hsi⟩ := hsec
  refine ⟨R, by simp [himp1], ?_, ?_, ?_, ?_, ?_⟩
  · rw [himp1]
    exact hsr
  · rw [himp1]
    exact hsi
  · intro k r h
    rw [himp1] at h
    exact hvals k r h
  · intro u hu
    rw [himp1]
    show idxGet (importResource sha1 openFs registry fs (cacheResource [] R) opt2).index u = _
    rw [hsi]
    exact cacheResource_get_mem _ _ _ (Or.inr (Or.inl (hRuri u hu)))
  · intro u h
    rw [himp1] at h
    rw [himp1]
    show idxGet (importResource sha1 openFs registry fs (cacheResource [] R) opt2).index u = none
    rw [hsi]
    exact h

/-- Counterexample to claim C1 as stated: the second import of identical
bytes from a different path returns the deduplicated resource with
`imported = false`, yet the second caller's source uri `"ub"` is NOT a key of
the index afterwards — the resource is not reachable by both imports' source
uris, only by the first's. -/
theorem claim1_counterexample :
    c1o2.result.toOption = some (false, c1R) ∧
      (idxGet c1o2.index "ua").isSome = true ∧
      idxGet c1o2.index "ub" = none := by
  refine ⟨by decide, by decide, by decide⟩

/-- Witness for the amended C1 theorem at the concrete scenario. -/
theorem claim1_dedup_amended_witness :
    ∃ R, c1o1.result = Except.ok (true, R) ∧ c1o2.result = Except.ok (false, R) ∧
      c1o2.index = c1o1.index ∧
      (∀ k r, idxGet c1o1.index k = some r → r = R) ∧
      (∀ u ∈ c1opt1.url, idxGet c1o2.index u = some R) ∧
      (∀ u, idxGet c1o1.index u = none → idxGet c1o2.index u = none) :=
  claim1_dedup_amended demoSha1 demoOpen [demoForgeEntry] c1fs 1 2 [7, 7] c1opt1 c1opt2
    (by decide) (by decide) c1o1 rfl c1o2 rfl

/-- Claim C5 failing input (code bug): after `load` indexes a curseforge-
sourced resource under its curseforge-derived uri, `removeResource` deletes
the hash, source-uri, inode and path keys but leaves the curseforge key
dangling — it still resolves to the removed resource, contradicting the
remove-all-keys invariant. -/
theorem claim5_remove_leaves_curseforge_key :
    (load c5fs "/r" c5disk).toOption = some c5idx ∧
      idxGet c5idx "h" = some c5R ∧
      idxGet c5idx (getCurseforgeUrl 7 9) = some c5R ∧
      idxGet c5idx2 "h" = none ∧
      idxGet c5idx2 "u" = none ∧
      idxGet c5idx2 "/data/m.jar" = none ∧
      idxGet c5idx2 (toString 5) = none ∧
      idxGet c5idx2 (getCurseforgeUrl 7 9) = some c5R := by
  refine ⟨by decide, by decide, by decide, by decide, by decide, by decide, by decide, by decide⟩

/-- Claim C6 failing input (code bug): with one sidecar referring to a
missing data file alongside a perfectly readable one, the whole rebuild
rejects (the stat rejection escapes the domain loop and the `Promise.all`),
producing no index at all — the entry is not skipped and no partial index
containing the readable resource is produced, although loading the readable
entry alone succeeds. -/
theorem claim6_load_aborts_on_missing_file :
    (load c6fs "/r" c6disk).toOption = none ∧
      (load c6fs "/r" [("mods", [some c6good])]).toOption = some c6partial ∧
      (idxGet c6partial "ha").isSome = true := by
  refine ⟨by decide, by decide, by decide⟩
